import Mathlib

/-
Verification of the NEXUS intrusion-detection engine (vael_core/nexus):
a shallow embedding of pulse.py (anomaly detector), suggest.py
(recommendation engine) and sync.py (rule store), with theorems checking
the natural-language specification against the code.

Python dicts are modelled as association lists with distinct keys
(lookup returns the first matching entry, as dict semantics guarantee a
unique one); floats are modelled as rationals; a computation that would
raise an exception is modelled as returning none.
-/

namespace VaelNexus

/-- Lookup in an association list: the read side of a Python dict. -/
def alGet {α : Type} : List (String × α) → String → Option α
  | [], _ => none
  | (k1, v) :: rest, k => if k1 = k then some v else alGet rest k

/-- Write to an association list: the assignment side of a Python dict
(replaces in place if the key exists, appends otherwise). -/
def alSet {α : Type} : List (String × α) → String → α → List (String × α)
  | [], k, v => [(k, v)]
  | (k1, v1) :: rest, k, v =>
      if k1 = k then (k1, v) :: rest else (k1, v1) :: alSet rest k v

/-- Membership test for an association list key. -/
def alHas {α : Type} (l : List (String × α)) (k : String) : Bool :=
  (alGet l k).isSome

theorem alGet_alSet_self {α : Type} (l : List (String × α)) (k : String) (v : α) :
    alGet (alSet l k v) k = some v := by
  induction l with
  | nil => simp [alGet, alSet]
  | cons h t ih =>
    obtain ⟨k1, v1⟩ := h
    by_cases hk : k1 = k
    · simp [alGet, alSet, hk]
    · simp [alGet, alSet, hk, ih]

theorem alGet_alSet_ne {α : Type} (l : List (String × α)) (k k2 : String) (v : α)
    (h : k ≠ k2) : alGet (alSet l k v) k2 = alGet l k2 := by
  induction l with
  | nil => simp [alGet, alSet, h]
  | cons hd t ih =>
    obtain ⟨k1, v1⟩ := hd
    by_cases hk : k1 = k
    · subst hk
      simp [alGet, alSet, h]
    · simp only [alSet, if_neg hk]
      by_cases hk2 : k1 = k2
      · simp [alGet, hk2]
      · simp [alGet, hk2, ih]

/-- Bounded append modelling collections.deque(maxlen=n): append on the
right, dropping oldest elements from the left beyond the bound. -/
def pushBounded {α : Type} (maxlen : ℕ) (l : List α) (x : α) : List α :=
  let l2 := l ++ [x]
  if maxlen < l2.length then l2.drop (l2.length - maxlen) else l2

/- ## Anomaly detector (pulse.py) -/

/-- Severity labels used across the engine (pulse.py / suggest.py). -/
inductive Severity
  | INFO
  | LOW
  | MEDIUM
  | HIGH
  | CRITICAL
deriving DecidableEq, Repr, Fintype

/-- One baseline entry: the mean / standard deviation pair stored per
metric in the baseline profile (pulse.py self.baseline values). -/
structure BaselineEntry where
  mean : ℚ
  std : ℚ
deriving DecidableEq, Repr

/-- Structured socket_payloads sub-dict of the metrics map. -/
structure SocketPayloads where
  total : ℕ
  anomalous : ℕ
deriving DecidableEq, Repr

/-- Structured log_entries sub-dict of the metrics map. -/
structure LogEntries where
  total : ℕ
  error_count : ℕ
deriving DecidableEq, Repr

/-- The metrics dict passed to Pulse.check: numeric metrics keyed by
name, plus the optional structured payloads that _detect_anomalies
reads. -/
structure Metrics where
  values : List (String × ℚ)
  socket_payloads : Option SocketPayloads
  log_entries : Option LogEntries
deriving DecidableEq, Repr

/-- Python truthiness of the metrics dict: an empty dict is falsy. -/
def Metrics.isEmptyDict (m : Metrics) : Bool :=
  m.values.isEmpty && m.socket_payloads.isNone && m.log_entries.isNone

/-- Anomaly records appended by Pulse._detect_anomalies: a per-metric
z-score deviation, a socket-payload anomaly, or a log-error-ratio
anomaly. -/
inductive Anomaly
  | metricDev (metric : String) (value baselineMean z_score : ℚ) (severity : Severity)
  | socketAnom (anomalous total : ℕ) (severity : Severity)
  | logErrors (error_count total : ℕ) (ratio : ℚ) (severity : Severity)
deriving DecidableEq, Repr

/-- The severity field carried by every anomaly record. -/
def Anomaly.severity : Anomaly → Severity
  | .metricDev _ _ _ _ s => s
  | .socketAnom _ _ s => s
  | .logErrors _ _ _ s => s

/-- Severity assignment of pulse.py lines 235-239: start at LOW,
overwrite with MEDIUM when z exceeds 3, with HIGH when z exceeds 4. -/
def zSeverity (z : ℚ) : Severity :=
  if 4 < z then .HIGH else if 3 < z then .MEDIUM else .LOW

/-- Per-baseline-entry step of the z-score loop in _detect_anomalies:
skip metrics absent from the metrics map, skip a zero (or non-positive)
standard deviation, emit an anomaly exactly when the z-score exceeds 2. -/
def detectOne (metrics : Metrics) (mb : String × BaselineEntry) : Option Anomaly :=
  match alGet metrics.values mb.1 with
  | none => none
  | some v =>
      if 0 < mb.2.std then
        if 2 < |v - mb.2.mean| / mb.2.std then
          some (.metricDev mb.1 v mb.2.mean (|v - mb.2.mean| / mb.2.std)
            (zSeverity (|v - mb.2.mean| / mb.2.std)))
        else none
      else none

/-- The z-score portion of _detect_anomalies, iterating the baseline
dict in insertion order. -/
def detectMetricAnomalies (baseline : List (String × BaselineEntry)) (metrics : Metrics) :
    List Anomaly :=
  baseline.filterMap (detectOne metrics)

/-- Socket-payload check of _detect_anomalies (a missing payload reads
as anomalous = 0). -/
def socketAnomalies (metrics : Metrics) : List Anomaly :=
  match metrics.socket_payloads with
  | some sp => if 0 < sp.anomalous then [.socketAnom sp.anomalous sp.total .MEDIUM] else []
  | none => []

/-- The error ratio of the log-entry check: error_count / max(total, 1),
with a missing log_entries payload reading as 0 errors over total 1. -/
def logErrorRatio (metrics : Metrics) : ℚ :=
  match metrics.log_entries with
  | some le => (le.error_count : ℚ) / ((max le.total 1 : ℕ) : ℚ)
  | none => 0

/-- Log-entry check of _detect_anomalies: an anomaly when the error
ratio exceeds 5 percent, severity MEDIUM below 10 percent and HIGH from
10 percent up (the record stores error_count and total with default 0). -/
def logAnomalies (metrics : Metrics) : List Anomaly :=
  if 1/20 < logErrorRatio metrics then
    [.logErrors
      (match metrics.log_entries with | some le => le.error_count | none => 0)
      (match metrics.log_entries with | some le => le.total | none => 0)
      (logErrorRatio metrics)
      (if logErrorRatio metrics < 1/10 then .MEDIUM else .HIGH)]
  else []

/-- Pulse._detect_anomalies: z-score anomalies in baseline order, then
the socket-payload check, then the log-entry check. -/
def detect_anomalies (baseline : List (String × BaselineEntry)) (metrics : Metrics) :
    List Anomaly :=
  detectMetricAnomalies baseline metrics ++ socketAnomalies metrics ++ logAnomalies metrics

/-- The severity_counts dict of _calculate_threat_level: it holds keys
for LOW, MEDIUM, HIGH and CRITICAL only. -/
structure SeverityCounts where
  low : ℕ
  medium : ℕ
  high : ℕ
  critical : ℕ
deriving DecidableEq, Repr

/-- One increment of the severity_counts dict; indexing with INFO (or
any other absent key) raises KeyError, modelled as none. -/
def bumpCount (c : SeverityCounts) : Severity → Option SeverityCounts
  | .LOW => some { c with low := c.low + 1 }
  | .MEDIUM => some { c with medium := c.medium + 1 }
  | .HIGH => some { c with high := c.high + 1 }
  | .CRITICAL => some { c with critical := c.critical + 1 }
  | .INFO => none

/-- The counting loop of _calculate_threat_level: successive increments
of the severity_counts dict, aborted by the first KeyError. -/
def countFold (c : SeverityCounts) : List Anomaly → Option SeverityCounts
  | [] => some c
  | a :: t =>
      match bumpCount c a.severity with
      | none => none
      | some c2 => countFold c2 t

/-- The severity_counts dict produced by the loop of
_calculate_threat_level, starting from all-zero counts. -/
def countLoop (anomalies : List Anomaly) : Option SeverityCounts :=
  countFold ⟨0, 0, 0, 0⟩ anomalies

/-- Pulse._calculate_threat_level: 0 for an empty list, otherwise the
step function over the severity counts. -/
def calculate_threat_level (anomalies : List Anomaly) : Option ℕ :=
  if anomalies.isEmpty then some 0
  else
    match countLoop anomalies with
    | none => none
    | some c =>
        some (if 0 < c.critical then 5
          else if 2 < c.high then 4
          else if 0 < c.high ∨ 2 < c.medium then 3
          else if 0 < c.medium ∨ 3 < c.low then 2
          else if 0 < c.low then 1
          else 0)

/-- The default baseline profile installed by Pulse._load_baseline when
no baseline file exists. -/
def defaultBaseline : List (String × BaselineEntry) :=
  [("cpu_usage", ⟨30, 15⟩), ("memory_usage", ⟨40, 20⟩), ("request_rate", ⟨5, 3⟩),
   ("error_rate", ⟨1/2, 1/2⟩), ("session_duration", ⟨300, 150⟩)]

/-- Mutable state of the Pulse instance used by check. -/
structure PulseState where
  last_pulse_time : ℚ
  baseline : List (String × BaselineEntry)
  scan_count : ℕ
  anomalies_hist : List (ℚ × ℕ × List Anomaly)
deriving DecidableEq, Repr

/-- Result of Pulse.check: either the RATE_LIMITED sentinel or a pulse
report carrying the threat level and anomaly list. -/
inductive PulseResult
  | rateLimited
  | report (timestamp : ℚ) (scan_id : ℕ) (threat_level : ℕ) (anomalies : List Anomaly)
deriving DecidableEq, Repr

/-- Pulse.check, with the randomness of _gather_metrics resolved by the
explicit argument gathered: rate limiting, the context-or-gathered
fallback (an empty context dict is falsy and therefore discarded),
anomaly detection, threat level, and the bounded anomaly history.
Returns none when _calculate_threat_level raises. -/
def pulseCheck (st : PulseState) (now : ℚ) (context : Option Metrics) (gathered : Metrics)
    (high_alert : Bool) : Option (PulseResult × PulseState) :=
  let min_interval : ℚ := if high_alert then 1/5 else 1
  if now - st.last_pulse_time < min_interval then some (.rateLimited, st)
  else
    let st1 : PulseState :=
      { st with last_pulse_time := now, scan_count := st.scan_count + 1 }
    let metrics := match context with
      | some c => if c.isEmptyDict then gathered else c
      | none => gathered
    let anomalies := detect_anomalies st1.baseline metrics
    match calculate_threat_level anomalies with
    | none => none
    | some tl =>
        let st2 : PulseState :=
          if anomalies ≠ [] ∧ 0 < tl then
            { st1 with anomalies_hist := pushBounded 10 st1.anomalies_hist (now, tl, anomalies) }
          else st1
        some (.report now st1.scan_count tl anomalies, st2)

/- ## Recommendation engine (suggest.py) -/

/-- A rule as seen by the confidence computation of suggest.py, i.e. a
dict whose Python len() is the number of its keys. -/
structure SgRule where
  fields : List String
deriving DecidableEq, Repr

/-- Python len() of a rule dict. -/
def SgRule.size (r : SgRule) : ℕ := r.fields.length

/-- Suggest._calculate_anomaly_consistency: 0.5 for at most one anomaly
or no severities, otherwise the count of the most common severity (the
max over the severity_counts dict values) divided by the number of
severities. -/
def calculate_anomaly_consistency (anomalies : List Anomaly) : ℚ :=
  if anomalies.length ≤ 1 then 1/2
  else
    let severities := anomalies.map Anomaly.severity
    if severities.isEmpty then 1/2
    else
      let most_common := (severities.map (fun s => severities.count s)).foldl max 0
      (most_common : ℚ) / (severities.length : ℚ)

/-- Suggest._calculate_rule_specificity: average field count of the
rules mapped through (avg - 5) / 10 and clamped to the unit interval. -/
def calculate_rule_specificity (rules : List SgRule) : ℚ :=
  if rules.isEmpty then 0
  else
    let avg_field_count : ℚ := (((rules.map SgRule.size).sum : ℕ) : ℚ) / (rules.length : ℚ)
    max 0 (min ((avg_field_count - 5) / 10) 1)

/-- Suggest._calculate_confidence: 0 for no anomalies, otherwise the
weighted sum of the base confidence, the anomaly consistency and the
rule specificity, clamped to the unit interval. -/
def calculate_confidence (anomalies : List Anomaly) (rules : List SgRule) : ℚ :=
  if anomalies.isEmpty then 0
  else
    let base_confidence : ℚ := min (1/2 + (anomalies.length : ℚ) * (1/10)) (4/5)
    let consistency := calculate_anomaly_consistency anomalies
    let rule_specificity := calculate_rule_specificity rules
    let confidence := base_confidence * (1/2) + consistency * (3/10) + rule_specificity * (1/5)
    max 0 (min confidence 1)

/-- Mutable state of the Suggest instance relevant to feedback: the
adaptive confidence threshold, the fixed learning rate, and the feedback
ring buffer (each record reduced to its helpful flag). -/
structure SuggestState where
  confidence_threshold : ℚ
  learning_rate : ℚ
  feedback_history : List Bool
deriving DecidableEq, Repr

/-- State installed by Suggest.__init__. -/
def initialSuggestState : SuggestState :=
  { confidence_threshold := 3/5, learning_rate := 1/10, feedback_history := [] }

/-- Suggest.provide_feedback: append to the bounded feedback history;
once at least 5 records are buffered, compute the helpful ratio and
raise the confidence threshold (capped at 0.9) below ratio 0.3 or lower
it (floored at 0.5) above ratio 0.7. -/
def provide_feedback (st : SuggestState) (helpful : Bool) : SuggestState :=
  let hist := pushBounded 20 st.feedback_history helpful
  if 5 ≤ hist.length then
    let helpful_count := hist.count true
    let helpful_ratio : ℚ := (helpful_count : ℚ) / (hist.length : ℚ)
    if helpful_ratio < 3/10 then
      { st with
        feedback_history := hist,
        confidence_threshold := min (st.confidence_threshold + st.learning_rate) (9/10) }
    else if 7/10 < helpful_ratio then
      { st with
        feedback_history := hist,
        confidence_threshold := max (st.confidence_threshold - st.learning_rate) (1/2) }
    else { st with feedback_history := hist }
  else { st with feedback_history := hist }

/- ## Rule store (sync.py) -/

/-- A stored rule of sync.py: its id (absent ids read as None through
dict.get) plus the remaining fields. -/
structure SyncRule where
  id : Option String
  fields : List (String × String)
deriving DecidableEq, Repr

/-- The persisted record of one rule partition: version plus rule list
(the updated timestamp plays no role in any claim). -/
structure DiskFile where
  version : List ℕ
  rules : List SyncRule
deriving DecidableEq, Repr

/-- SHA-256 of the serialized record, modelled as the record itself
(collision-free content hash). -/
def fileHash (d : DiskFile) : DiskFile := d

/-- Mutable state of the Sync instance: the in-memory rules, versions
and hashes keyed by rule type, the sync clock, the dirty set (as an
insertion-ordered duplicate-free list) and the on-disk files. -/
structure SyncState where
  rules : List (String × List SyncRule)
  rule_versions : List (String × List ℕ)
  rule_hashes : List (String × DiskFile)
  last_sync_time : ℚ
  modified_rules : List String
  disk : List (String × DiskFile)
deriving DecidableEq, Repr

/-- Keys of the fixed rule_paths dict of Sync._get_rule_paths. -/
def rulePathKeys : List String :=
  ["intrusion", "anomaly", "behavior", "baseline", "risk"]

/-- Semantic version strings are modelled as their dotted numeric
components; a version is incremented by bumping its last component, as
_apply_rule_modifications does on the split string. -/
def bumpVersion (v : List ℕ) : List ℕ :=
  v.dropLast ++ [(v.getLast?.getD 0) + 1]

/-- Strict order on versions: lexicographic on the components. -/
def versionLt (v w : List ℕ) : Prop :=
  List.Lex (· < ·) v w

/-- Sync.get_rule_version (default version string 0.0.0). -/
def get_rule_version (st : SyncState) (rule_type : String) : List ℕ :=
  (alGet st.rule_versions rule_type).getD [0, 0, 0]

/-- Sync.add_rule: create the partition if missing, refuse when a rule
with the same id exists, otherwise append the rule and mark the
partition dirty. -/
def add_rule (st : SyncState) (rule_type : String) (rule : SyncRule) : Bool × SyncState :=
  let st1 := if alHas st.rules rule_type then st
    else { st with rules := alSet st.rules rule_type [] }
  let current := (alGet st1.rules rule_type).getD []
  if current.any (fun ex => ex.id = rule.id) then (false, st1)
  else
    (true, { st1 with
      rules := alSet st1.rules rule_type (current ++ [rule]),
      modified_rules :=
        if rule_type ∈ st1.modified_rules then st1.modified_rules
        else st1.modified_rules ++ [rule_type] })

/-- One step of Sync._apply_rule_modifications for a dirty rule type:
bump (or initialize) the version, persist the record to disk, and store
its hash; rule types without in-memory rules or without a path are
skipped. -/
def applyOne (st : SyncState) (rule_type : String) : SyncState :=
  if alHas st.rules rule_type ∧ rule_type ∈ rulePathKeys then
    let version := match alGet st.rule_versions rule_type with
      | some v => bumpVersion v
      | none => [1, 0, 0]
    let data : DiskFile := ⟨version, (alGet st.rules rule_type).getD []⟩
    { st with
      rule_versions := alSet st.rule_versions rule_type version,
      disk := alSet st.disk rule_type data,
      rule_hashes := alSet st.rule_hashes rule_type (fileHash data) }
  else st

/-- Sync._apply_rule_modifications: persist every dirty partition. -/
def apply_rule_modifications (st : SyncState) : SyncState :=
  st.modified_rules.foldl applyOne st

/-- One step of Sync._check_rule_updates for a rule type: when an
on-disk file exists and its hash differs from the stored hash, reload
rules, version and hash from disk. -/
def checkOne (st : SyncState) (rule_type : String) : SyncState :=
  match alGet st.disk rule_type with
  | none => st
  | some data =>
      match alGet st.rule_hashes rule_type with
      | some stored =>
          if fileHash data ≠ stored then
            { st with
              rules := alSet st.rules rule_type data.rules,
              rule_versions := alSet st.rule_versions rule_type data.version,
              rule_hashes := alSet st.rule_hashes rule_type (fileHash data) }
          else st
      | none => st

/-- Sync._check_rule_updates over every rule path. -/
def check_rule_updates (st : SyncState) : SyncState :=
  rulePathKeys.foldl checkOne st

/-- Sync.sync: skip inside the interval unless forced; otherwise stamp
the sync time, pick up external file updates, persist dirty partitions,
and clear the dirty set. -/
def syncOp (st : SyncState) (now : ℚ) (force : Bool) : SyncState :=
  if force = false ∧ now - st.last_sync_time < 3600 then st
  else
    let st1 := { st with last_sync_time := now }
    let st2 := check_rule_updates st1
    let st3 := apply_rule_modifications st2
    { st3 with modified_rules := [] }

/-- Result dict of Sync.verify_integrity. -/
structure IntegrityResult where
  verified : List String
  failed : List (String × String)
deriving DecidableEq, Repr

/-- The status field of the verify_integrity result. -/
def IntegrityResult.status (r : IntegrityResult) : String :=
  if r.failed.isEmpty then "SUCCESS" else "FAILED"

/-- One step of Sync.verify_integrity for a rule type: compare the
recomputed on-disk hash with the stored one; report verified on a
match, report failed with reason on a mismatch, and adopt the hash only
when none was stored. -/
def verifyOne (acc : IntegrityResult × SyncState) (rule_type : String) :
    IntegrityResult × SyncState :=
  match alGet acc.2.disk rule_type with
  | none => acc
  | some data =>
      match alGet acc.2.rule_hashes rule_type with
      | some stored =>
          if fileHash data = stored then
            ({ acc.1 with verified := acc.1.verified ++ [rule_type] }, acc.2)
          else
            ({ acc.1 with failed := acc.1.failed ++ [(rule_type, "Hash mismatch")] }, acc.2)
      | none =>
          ({ acc.1 with verified := acc.1.verified ++ [rule_type] },
           { acc.2 with rule_hashes := alSet acc.2.rule_hashes rule_type (fileHash data) })

/-- Sync.verify_integrity over every rule path. -/
def verify_integrity (st : SyncState) : IntegrityResult × SyncState :=
  rulePathKeys.foldl verifyOne (⟨[], []⟩, st)

/- ## Helper lemmas -/

/-- Claim-side severity count: the number of anomalies carrying a given
severity. -/
def countSeverity (anomalies : List Anomaly) (s : Severity) : ℕ :=
  (anomalies.filter (fun a => a.severity = s)).length

theorem countFold_eq (l : List Anomaly) (c : SeverityCounts)
    (h : ∀ a ∈ l, a.severity ≠ .INFO) :
    countFold c l =
      some ⟨c.low + countSeverity l .LOW, c.medium + countSeverity l .MEDIUM,
            c.high + countSeverity l .HIGH, c.critical + countSeverity l .CRITICAL⟩ := by
  induction l generalizing c with
  | nil => simp [countFold, countSeverity]
  | cons a t ih =>
    have ha : a.severity ≠ .INFO := h a (List.mem_cons_self a t)
    have ht : ∀ x ∈ t, x.severity ≠ .INFO := fun x hx => h x (List.mem_cons_of_mem a hx)
    cases hs : a.severity with
    | INFO => exact absurd hs ha
    | LOW =>
      simp only [countFold, hs, bumpCount]
      rw [ih _ ht]
      simp [countSeverity, hs]
      omega
    | MEDIUM =>
      simp only [countFold, hs, bumpCount]
      rw [ih _ ht]
      simp [countSeverity, hs]
      omega
    | HIGH =>
      simp only [countFold, hs, bumpCount]
      rw [ih _ ht]
      simp [countSeverity, hs]
      omega
    | CRITICAL =>
      simp only [countFold, hs, bumpCount]
      rw [ih _ ht]
      simp [countSeverity, hs]
      omega

theorem calc_threat_eq_step (anomalies : List Anomaly)
    (h : ∀ a ∈ anomalies, a.severity ≠ .INFO) :
    calculate_threat_level anomalies =
      some (if 0 < countSeverity anomalies .CRITICAL then 5
        else if 2 < countSeverity anomalies .HIGH then 4
        else if 0 < countSeverity anomalies .HIGH ∨ 2 < countSeverity anomalies .MEDIUM then 3
        else if 0 < countSeverity anomalies .MEDIUM ∨ 3 < countSeverity anomalies .LOW then 2
        else if 0 < countSeverity anomalies .LOW then 1
        else 0) := by
  unfold calculate_threat_level countLoop
  by_cases he : anomalies = []
  · subst he
    simp [countFold, countSeverity]
  · rw [countFold_eq anomalies ⟨0, 0, 0, 0⟩ h]
    simp [he]

/- ## Claims about the anomaly detector -/

/-- C2: for every list of anomalies (whose severities are among the four
counted keys), the aggregate threat level equals the step function of
the severity counts: 5 if any CRITICAL; else 4 if HIGH count exceeds 2;
else 3 if HIGH count positive or MEDIUM count exceeds 2; else 2 if
MEDIUM count positive or LOW count exceeds 3; else 1 if LOW count
positive; else 0. -/
theorem threat_level_step_function (anomalies : List Anomaly)
    (h : ∀ a ∈ anomalies, a.severity ≠ .INFO) :
    calculate_threat_level anomalies =
      some (if 0 < countSeverity anomalies .CRITICAL then 5
        else if 2 < countSeverity anomalies .HIGH then 4
        else if 0 < countSeverity anomalies .HIGH ∨ 2 < countSeverity anomalies .MEDIUM then 3
        else if 0 < countSeverity anomalies .MEDIUM ∨ 3 < countSeverity anomalies .LOW then 2
        else if 0 < countSeverity anomalies .LOW then 1
        else 0) :=
  calc_threat_eq_step anomalies h

/-- Witness for C2: three MEDIUM anomalies yield threat level 3. -/
theorem threat_level_step_function_witness :
    calculate_threat_level
      [Anomaly.socketAnom 1 10 .MEDIUM, Anomaly.socketAnom 2 10 .MEDIUM,
       Anomaly.socketAnom 3 10 .MEDIUM] = some 3 := by
  rw [threat_level_step_function _ (by decide)]
  decide

/-- C10: every anomaly the detector emits has severity LOW, MEDIUM or
HIGH (never CRITICAL or INFO), so the threat level is defined (the
severity-count lookup never hits an unknown key) and is at most 4. -/
theorem detector_severity_range (baseline : List (String × BaselineEntry)) (metrics : Metrics) :
    (∀ a ∈ detect_anomalies baseline metrics,
      a.severity = .LOW ∨ a.severity = .MEDIUM ∨ a.severity = .HIGH) ∧
    ∃ n, calculate_threat_level (detect_anomalies baseline metrics) = some n ∧ n ≤ 4 := by
  have hsev : ∀ a ∈ detect_anomalies baseline metrics,
      a.severity = .LOW ∨ a.severity = .MEDIUM ∨ a.severity = .HIGH := by
    intro a ha
    unfold detect_anomalies at ha
    rcases List.mem_append.mp ha with h12 | h3
    · rcases List.mem_append.mp h12 with h1 | h2
      · obtain ⟨mb, -, hone⟩ := List.mem_filterMap.mp h1
        unfold detectOne at hone
        split at hone
        · exact absurd hone (by simp)
        · split at hone
          · split at hone
            · injection hone with he
              subst he
              simp only [Anomaly.severity, zSeverity]
              split_ifs <;> simp
            · exact absurd hone (by simp)
          · exact absurd hone (by simp)
      · unfold socketAnomalies at h2
        split at h2
        · split at h2
          · rw [List.mem_singleton] at h2
            subst h2
            simp [Anomaly.severity]
          · simp at h2
        · simp at h2
    · unfold logAnomalies at h3
      split at h3
      · rw [List.mem_singleton] at h3
        subst h3
        simp only [Anomaly.severity]
        split_ifs <;> simp
      · simp at h3
  refine ⟨hsev, ?_⟩
  have hinfo : ∀ a ∈ detect_anomalies baseline metrics, a.severity ≠ .INFO := by
    intro a ha
    rcases hsev a ha with h | h | h <;> simp [h]
  have hcrit : countSeverity (detect_anomalies baseline metrics) .CRITICAL = 0 := by
    unfold countSeverity
    rw [List.length_eq_zero, List.filter_eq_nil_iff]
    intro a ha
    rcases hsev a ha with h | h | h <;> simp [h]
  rw [calc_threat_eq_step _ hinfo]
  refine ⟨_, rfl, ?_⟩
  rw [hcrit]
  split_ifs <;> omega

/-- Recognizer for log-error anomaly records. -/
def Anomaly.isLogError : Anomaly → Bool
  | .logErrors _ _ _ _ => true
  | _ => false

theorem filter_isLogError (baseline : List (String × BaselineEntry)) (metrics : Metrics) :
    (detect_anomalies baseline metrics).filter (fun a => a.isLogError) = logAnomalies metrics := by
  unfold detect_anomalies
  rw [List.filter_append, List.filter_append]
  have h1 : (detectMetricAnomalies baseline metrics).filter (fun a => a.isLogError) = [] := by
    rw [List.filter_eq_nil_iff]
    intro a ha
    obtain ⟨mb, -, hone⟩ := List.mem_filterMap.mp ha
    unfold detectOne at hone
    split at hone
    · exact absurd hone (by simp)
    · split at hone
      · split at hone
        · injection hone with he
          subst he
          simp [Anomaly.isLogError]
        · exact absurd hone (by simp)
      · exact absurd hone (by simp)
  have h2 : (socketAnomalies metrics).filter (fun a => a.isLogError) = [] := by
    unfold socketAnomalies
    split
    · split
      · simp [Anomaly.isLogError]
      · rfl
    · rfl
  have h3 : (logAnomalies metrics).filter (fun a => a.isLogError) = logAnomalies metrics := by
    unfold logAnomalies
    split
    · simp [Anomaly.isLogError]
    · rfl
  rw [h1, h2, h3]
  rfl

/-- C9 (amended): for every metrics map with a log_entries payload, a
log-error anomaly is emitted exactly when the error ratio exceeds 5
percent; its severity is MEDIUM when the ratio is below 10 percent and
HIGH when the ratio is at least 10 percent (a ratio of exactly 10
percent yields HIGH). -/
theorem log_error_detection (baseline : List (String × BaselineEntry)) (metrics : Metrics)
    (le : LogEntries) (hle : metrics.log_entries = some le) :
    ((le.error_count : ℚ) / ((max le.total 1 : ℕ) : ℚ) ≤ 1/20 →
      (detect_anomalies baseline metrics).filter (fun a => a.isLogError) = []) ∧
    (1/20 < (le.error_count : ℚ) / ((max le.total 1 : ℕ) : ℚ) →
      (detect_anomalies baseline metrics).filter (fun a => a.isLogError) =
        [.logErrors le.error_count le.total
          ((le.error_count : ℚ) / ((max le.total 1 : ℕ) : ℚ))
          (if (le.error_count : ℚ) / ((max le.total 1 : ℕ) : ℚ) < 1/10
            then .MEDIUM else .HIGH)] ∧
      ((if (le.error_count : ℚ) / ((max le.total 1 : ℕ) : ℚ) < 1/10
          then Severity.MEDIUM else Severity.HIGH) = .MEDIUM ↔
        (le.error_count : ℚ) / ((max le.total 1 : ℕ) : ℚ) < 1/10) ∧
      ((if (le.error_count : ℚ) / ((max le.total 1 : ℕ) : ℚ) < 1/10
          then Severity.MEDIUM else Severity.HIGH) = .HIGH ↔
        1/10 ≤ (le.error_count : ℚ) / ((max le.total 1 : ℕ) : ℚ))) := by
  have hr : logErrorRatio metrics = (le.error_count : ℚ) / ((max le.total 1 : ℕ) : ℚ) := by
    unfold logErrorRatio
    rw [hle]
  rw [filter_isLogError]
  unfold logAnomalies
  rw [hr, hle]
  constructor
  · intro hle20
    rw [if_neg (not_lt.mpr hle20)]
  · intro hgt
    rw [if_pos hgt]
    refine ⟨rfl, ?_, ?_⟩
    · constructor
      · intro hif
        by_contra hnot
        rw [if_neg hnot] at hif
        exact absurd hif (by simp)
      · intro hlt
        rw [if_pos hlt]
    · constructor
      · intro hif
        by_contra hnot
        rw [not_le] at hnot
        rw [if_pos hnot] at hif
        exact absurd hif (by simp)
      · intro hge
        rw [if_neg (not_lt.mpr hge)]

/-- Witness for C9 (amended): 4 errors out of 50 entries (ratio 8
percent) yield exactly one MEDIUM log-error anomaly. -/
theorem log_error_detection_witness :
    (detect_anomalies defaultBaseline ⟨[], none, some ⟨50, 4⟩⟩).filter (fun a => a.isLogError) =
      [Anomaly.logErrors 4 50 ((4 : ℚ) / ((max 50 1 : ℕ) : ℚ))
        (if (4 : ℚ) / ((max 50 1 : ℕ) : ℚ) < 1/10 then Severity.MEDIUM else Severity.HIGH)] := by
  have h := log_error_detection defaultBaseline ⟨[], none, some ⟨50, 4⟩⟩ ⟨50, 4⟩ rfl
  exact (h.2 (by norm_num)).1

/-- C9 counterexample: with 1 error out of 10 log entries the ratio is
exactly 10 percent, which does not exceed 10 percent, yet the emitted
log-error anomaly has severity HIGH, not MEDIUM as claimed. -/
theorem log_error_boundary_cex :
    detect_anomalies defaultBaseline ⟨[], none, some ⟨10, 1⟩⟩ =
      [Anomaly.logErrors 1 10 (1/10) .HIGH] ∧
    ¬ ((1 : ℚ)/10 > 1/10) ∧ Severity.HIGH ≠ Severity.MEDIUM := by
  refine ⟨?_, by norm_num, by simp⟩
  norm_num [detect_anomalies, detectMetricAnomalies, detectOne, socketAnomalies,
    logAnomalies, logErrorRatio, defaultBaseline, alGet, List.filterMap]

/-- An empty metrics dict. -/
def emptyMetrics : Metrics := ⟨[], none, none⟩

/-- C3 (amended): calling check with an empty metrics map outside the
rate-limit interval discards the empty map (a falsy dict) in favour of
the internally gathered metrics, and returns threat level 0 with an
empty anomaly list precisely when the gathered fallback metrics
trigger no anomalies. -/
theorem check_empty_context (st : PulseState) (now : ℚ) (gathered : Metrics)
    (high_alert : Bool)
    (hrate : ¬ (now - st.last_pulse_time < (if high_alert then (1/5 : ℚ) else 1)))
    (hg : detect_anomalies st.baseline gathered = []) :
    pulseCheck st now (some emptyMetrics) gathered high_alert =
      some (.report now (st.scan_count + 1) 0 [],
        { st with last_pulse_time := now, scan_count := st.scan_count + 1 }) := by
  simp only [pulseCheck]
  rw [if_neg hrate]
  simp [emptyMetrics, Metrics.isEmptyDict, hg, calculate_threat_level]

/-- Witness for C3 (amended): from a fresh state at time 10, check with
the empty metrics map and anomaly-free gathered metrics reports threat
level 0 and no anomalies. -/
theorem check_empty_context_witness :
    pulseCheck ⟨0, defaultBaseline, 0, []⟩ 10 (some emptyMetrics) emptyMetrics false =
      some (.report 10 1 0 [], ⟨10, defaultBaseline, 1, []⟩) := by
  have h0 : ¬ ((1 : ℚ)/20 < 0) := by norm_num
  exact check_empty_context ⟨0, defaultBaseline, 0, []⟩ 10 emptyMetrics false
    (by norm_num)
    (by simp [detect_anomalies, detectMetricAnomalies, detectOne, socketAnomalies,
      logAnomalies, logErrorRatio, emptyMetrics, defaultBaseline, alGet, h0])

/-- Gathered fallback metrics containing an anomalous cpu_usage value. -/
def gatheredCex : Metrics := ⟨[("cpu_usage", 105)], none, none⟩

/-- C3 counterexample: with an empty metrics map as context, check falls
back to the gathered metrics (here cpu_usage 105 against baseline mean
30, std 15, z-score 5) and returns threat level 3 with a non-empty
anomaly list, not threat level 0 with an empty list. -/
theorem check_empty_context_cex :
    pulseCheck ⟨0, defaultBaseline, 0, []⟩ 10 (some emptyMetrics) gatheredCex false =
      some (.report 10 1 3 [.metricDev "cpu_usage" 105 30 5 .HIGH],
        ⟨10, defaultBaseline, 1, [(10, 3, [.metricDev "cpu_usage" 105 30 5 .HIGH])]⟩) ∧
    (3 : ℕ) ≠ 0 ∧
    ([Anomaly.metricDev "cpu_usage" 105 30 5 .HIGH] : List Anomaly) ≠ [] := by
  refine ⟨?_, by norm_num, by simp⟩
  have hz : |(105 : ℚ) - 30| / 15 = 5 := by norm_num
  have h2 : (2 : ℚ) < 5 := by norm_num
  have h4 : (4 : ℚ) < 5 := by norm_num
  have h015 : (0 : ℚ) < 15 := by norm_num
  have hr : ¬ ((10 : ℚ) - 0 < 1) := by norm_num
  simp [pulseCheck, emptyMetrics, Metrics.isEmptyDict, gatheredCex, detect_anomalies,
    detectMetricAnomalies, detectOne, socketAnomalies, logAnomalies, logErrorRatio,
    defaultBaseline, alGet, zSeverity, calculate_threat_level, countLoop, countFold,
    bumpCount, pushBounded, Anomaly.severity, hz, h2, h4, h015, hr]

/-- Recognizer for per-metric deviation records carrying a given metric
name. -/
def Anomaly.isMetricDevFor (m : String) : Anomaly → Bool
  | .metricDev m1 _ _ _ _ => m1 == m
  | _ => false

theorem detectOne_metric_eq (metrics : Metrics) (mb : String × BaselineEntry) (a : Anomaly)
    (h : detectOne metrics mb = some a) (m : String) :
    a.isMetricDevFor m = (mb.1 == m) := by
  unfold detectOne at h
  split at h
  · exact absurd h (by simp)
  · split at h
    · split at h
      · injection h with he
        subst he
        rfl
      · exact absurd h (by simp)
    · exact absurd h (by simp)

theorem filter_detectMetric_not_mem (metrics : Metrics)
    (baseline : List (String × BaselineEntry)) (m : String)
    (hnm : ∀ p ∈ baseline, p.1 ≠ m) :
    (detectMetricAnomalies baseline metrics).filter (fun a => a.isMetricDevFor m) = [] := by
  rw [List.filter_eq_nil_iff]
  intro a ha
  obtain ⟨mb, hmb, hone⟩ := List.mem_filterMap.mp ha
  rw [detectOne_metric_eq metrics mb a hone m]
  simp [hnm mb hmb]

theorem filter_detectMetric_lookup (metrics : Metrics)
    (baseline : List (String × BaselineEntry)) (m : String) (b : BaselineEntry)
    (hnd : (baseline.map Prod.fst).Nodup) (hb : alGet baseline m = some b) :
    (detectMetricAnomalies baseline metrics).filter (fun a => a.isMetricDevFor m) =
      (detectOne metrics (m, b)).toList := by
  induction baseline with
  | nil => simp [alGet] at hb
  | cons hd t ih =>
    obtain ⟨k1, b1⟩ := hd
    rw [List.map_cons, List.nodup_cons] at hnd
    obtain ⟨hk1t, hndt⟩ := hnd
    unfold detectMetricAnomalies
    rw [List.filterMap_cons]
    by_cases hk : k1 = m
    · subst hk
      have hb1 : b1 = b := by
        simpa [alGet] using hb
      subst hb1
      have hrest : (List.filterMap (detectOne metrics) t).filter
          (fun a => a.isMetricDevFor k1) = [] := by
        have hnm : ∀ p ∈ t, p.1 ≠ k1 := by
          intro p hp hpk
          have hmem : p.1 ∈ List.map Prod.fst t := List.mem_map_of_mem Prod.fst hp
          rw [hpk] at hmem
          exact hk1t hmem
        have := filter_detectMetric_not_mem metrics t k1 hnm
        unfold detectMetricAnomalies at this
        exact this
      rcases ho : detectOne metrics (k1, b1) with _ | a
      · simpa using hrest
      · have hsa := detectOne_metric_eq metrics (k1, b1) a ho k1
        simp only [beq_self_eq_true] at hsa
        simp [List.filter_cons, hsa, hrest]
    · have hbt : alGet t m = some b := by
        simpa [alGet, hk] using hb
      have htail := ih hndt hbt
      unfold detectMetricAnomalies at htail
      rcases ho : detectOne metrics (k1, b1) with _ | a
      · simpa using htail
      · have hsa := detectOne_metric_eq metrics (k1, b1) a ho m
        have hkm : (k1 == m) = false := by
          simpa using hk
        rw [hkm] at hsa
        simpa [List.filter_cons, hsa] using htail

theorem filter_socket_dev (metrics : Metrics) (m : String) :
    (socketAnomalies metrics).filter (fun a => a.isMetricDevFor m) = [] := by
  unfold socketAnomalies
  split
  · split
    · simp [Anomaly.isMetricDevFor]
    · rfl
  · rfl

theorem filter_log_dev (metrics : Metrics) (m : String) :
    (logAnomalies metrics).filter (fun a => a.isMetricDevFor m) = [] := by
  unfold logAnomalies
  split
  · simp [Anomaly.isMetricDevFor]
  · rfl

theorem filter_detect_eq_toList (metrics : Metrics)
    (baseline : List (String × BaselineEntry)) (m : String) (b : BaselineEntry)
    (hnd : (baseline.map Prod.fst).Nodup) (hb : alGet baseline m = some b) :
    (detect_anomalies baseline metrics).filter (fun a => a.isMetricDevFor m) =
      (detectOne metrics (m, b)).toList := by
  unfold detect_anomalies
  rw [List.filter_append, List.filter_append,
    filter_detectMetric_lookup metrics baseline m b hnd hb,
    filter_socket_dev, filter_log_dev]
  simp

/-- C1: for every metric present in both the metrics map and the
baseline, no deviation anomaly is emitted when the baseline standard
deviation is not positive; when it is positive, with z the absolute
deviation over the standard deviation, an anomaly for that metric is
emitted exactly when z exceeds 2, it carries z as its z_score, and its
severity is HIGH iff z exceeds 4, MEDIUM iff 3 < z and z at most 4, and
LOW iff 2 < z and z at most 3. -/
theorem zscore_bucketing (baseline : List (String × BaselineEntry)) (metrics : Metrics)
    (m : String) (v : ℚ) (b : BaselineEntry)
    (hnd : (baseline.map Prod.fst).Nodup)
    (hm : alGet metrics.values m = some v)
    (hb : alGet baseline m = some b) :
    (b.std ≤ 0 →
      (detect_anomalies baseline metrics).filter (fun a => a.isMetricDevFor m) = []) ∧
    (0 < b.std →
      (|v - b.mean| / b.std ≤ 2 →
        (detect_anomalies baseline metrics).filter (fun a => a.isMetricDevFor m) = []) ∧
      (2 < |v - b.mean| / b.std →
        (detect_anomalies baseline metrics).filter (fun a => a.isMetricDevFor m) =
          [.metricDev m v b.mean (|v - b.mean| / b.std)
            (zSeverity (|v - b.mean| / b.std))] ∧
        (zSeverity (|v - b.mean| / b.std) = .HIGH ↔ 4 < |v - b.mean| / b.std) ∧
        (zSeverity (|v - b.mean| / b.std) = .MEDIUM ↔
          3 < |v - b.mean| / b.std ∧ |v - b.mean| / b.std ≤ 4) ∧
        (zSeverity (|v - b.mean| / b.std) = .LOW ↔
          2 < |v - b.mean| / b.std ∧ |v - b.mean| / b.std ≤ 3))) := by
  have hfil := filter_detect_eq_toList metrics baseline m b hnd hb
  have hone : detectOne metrics (m, b) =
      (if 0 < b.std then
        (if 2 < |v - b.mean| / b.std then
          some (.metricDev m v b.mean (|v - b.mean| / b.std)
            (zSeverity (|v - b.mean| / b.std)))
        else none)
      else none) := by
    unfold detectOne
    rw [hm]
  refine ⟨?_, ?_⟩
  · intro hstd
    rw [hfil, hone, if_neg (not_lt.mpr hstd)]
    rfl
  · intro hstd
    refine ⟨?_, ?_⟩
    · intro hz
      rw [hfil, hone, if_pos hstd, if_neg (not_lt.mpr hz)]
      rfl
    · intro hz
      refine ⟨?_, ?_, ?_, ?_⟩
      · rw [hfil, hone, if_pos hstd, if_pos hz]
        rfl
      · unfold zSeverity
        split_ifs with h4 h3 <;> simp [h4]
      · unfold zSeverity
        split_ifs with h4 h3
        · simp only [false_iff, not_and, not_le]
          intro _
          linarith
        · simp only [true_iff]
          exact ⟨h3, le_of_not_lt h4⟩
        · simp only [false_iff, not_and, not_le]
          intro hgt
          exact absurd hgt h3
      · unfold zSeverity
        split_ifs with h4 h3
        · simp only [false_iff, not_and, not_le]
          intro _
          linarith
        · simp only [false_iff, not_and, not_le]
          intro _
          linarith
        · simp only [true_iff]
          exact ⟨hz, le_of_not_lt h3⟩

/-- Witness for C1: cpu_usage 105 against baseline mean 30 and std 15
(z-score 5) instantiates the bucketing theorem. -/
theorem zscore_bucketing_witness :
    ((15 : ℚ) ≤ 0 →
      (detect_anomalies defaultBaseline gatheredCex).filter
        (fun a => a.isMetricDevFor "cpu_usage") = []) ∧
    ((0 : ℚ) < 15 →
      (|(105 : ℚ) - 30| / 15 ≤ 2 →
        (detect_anomalies defaultBaseline gatheredCex).filter
          (fun a => a.isMetricDevFor "cpu_usage") = []) ∧
      (2 < |(105 : ℚ) - 30| / 15 →
        (detect_anomalies defaultBaseline gatheredCex).filter
          (fun a => a.isMetricDevFor "cpu_usage") =
          [.metricDev "cpu_usage" 105 30 (|(105 : ℚ) - 30| / 15)
            (zSeverity (|(105 : ℚ) - 30| / 15))] ∧
        (zSeverity (|(105 : ℚ) - 30| / 15) = .HIGH ↔ 4 < |(105 : ℚ) - 30| / 15) ∧
        (zSeverity (|(105 : ℚ) - 30| / 15) = .MEDIUM ↔
          3 < |(105 : ℚ) - 30| / 15 ∧ |(105 : ℚ) - 30| / 15 ≤ 4) ∧
        (zSeverity (|(105 : ℚ) - 30| / 15) = .LOW ↔
          2 < |(105 : ℚ) - 30| / 15 ∧ |(105 : ℚ) - 30| / 15 ≤ 3))) :=
  zscore_bucketing defaultBaseline gatheredCex "cpu_usage" 105 ⟨30, 15⟩
    (by simp [defaultBaseline]) (by rfl) (by rfl)

/- ## Claims about the recommendation engine -/

theorem le_foldl_max_init (l : List ℕ) (a : ℕ) : a ≤ l.foldl max a := by
  induction l generalizing a with
  | nil => exact le_refl a
  | cons x t ih => exact le_trans (le_max_left a x) (ih (max a x))

theorem le_foldl_max_mem (l : List ℕ) (a x : ℕ) (hx : x ∈ l) : x ≤ l.foldl max a := by
  induction l generalizing a with
  | nil => simp at hx
  | cons y t ih =>
    rcases List.mem_cons.mp hx with rfl | hxt
    · exact le_trans (le_max_right a x) (le_foldl_max_init t (max a x))
    · exact ih (max a y) hxt

theorem foldl_max_le (l : List ℕ) (a c : ℕ) (ha : a ≤ c) (h : ∀ x ∈ l, x ≤ c) :
    l.foldl max a ≤ c := by
  induction l generalizing a with
  | nil => exact ha
  | cons y t ih =>
    exact ih (max a y) (max_le ha (h y (List.mem_cons_self y t)))
      (fun x hx => h x (List.mem_cons_of_mem y hx))

theorem foldl_count_max_eq (l : List Severity) :
    (l.map fun s => l.count s).foldl max 0 =
      Finset.univ.sup fun s : Severity => l.count s := by
  apply le_antisymm
  · apply foldl_max_le _ _ _ (Nat.zero_le _)
    intro x hx
    obtain ⟨s, hs, rfl⟩ := List.mem_map.mp hx
    exact @Finset.le_sup ℕ Severity _ _ Finset.univ (fun s : Severity => l.count s) s
      (Finset.mem_univ s)
  · apply Finset.sup_le
    intro s _
    by_cases hsl : s ∈ l
    · exact le_foldl_max_mem _ _ _ (List.mem_map_of_mem _ hsl)
    · rw [List.count_eq_zero.mpr hsl]
      exact Nat.zero_le _

/-- Spec-side consistency: the fraction of the group whose severity is
the most common one, and one half for a singleton group. -/
def modalFraction (anomalies : List Anomaly) : ℚ :=
  if anomalies.length = 1 then 1/2
  else
    ((Finset.univ.sup (fun s : Severity => (anomalies.map Anomaly.severity).count s) : ℕ) : ℚ)
      / (anomalies.length : ℚ)

/-- Spec-side rule specificity: the rules' average field count brought
into the unit interval through (avg - 5) / 10 and clamping. -/
def avgSpecificity (rules : List SgRule) : ℚ :=
  max 0 (min ((((rules.map SgRule.size).sum : ℚ) / (rules.length : ℚ) - 5) / 10) 1)

/-- C4: for every non-empty anomaly group and non-empty matching rule
set, the assessment confidence equals 0.5 base + 0.3 consistency + 0.2
ruleSpecificity clamped to the unit interval, where base caps
0.5 + 0.1 anomalyCount at 0.8, consistency is the modal-severity
fraction (one half for a singleton group), and the rule specificity is
the rules' normalized average field count, which lies in the unit
interval. -/
theorem confidence_weighted_sum (g : List Anomaly) (rs : List SgRule)
    (hg : g ≠ []) (hr : rs ≠ []) :
    calculate_confidence g rs =
      max 0 (min ((1/2) * min (1/2 + (g.length : ℚ) * (1/10)) (4/5)
        + (3/10) * modalFraction g + (1/5) * avgSpecificity rs) 1) ∧
    0 ≤ avgSpecificity rs ∧ avgSpecificity rs ≤ 1 := by
  have hlenpos : 0 < g.length := List.length_pos.mpr hg
  have hcons : calculate_anomaly_consistency g = modalFraction g := by
    unfold calculate_anomaly_consistency modalFraction
    by_cases h1 : g.length = 1
    · rw [if_pos (by omega), if_pos h1]
    · have hgt : 1 < g.length := by omega
      rw [if_neg (by omega), if_neg h1]
      have hne : (g.map Anomaly.severity).isEmpty = false := by
        rw [List.isEmpty_eq_false_iff_exists_mem]
        obtain ⟨a, ha⟩ := List.exists_mem_of_ne_nil g hg
        exact ⟨a.severity, List.mem_map_of_mem _ ha⟩
      rw [if_neg (by simp [hne])]
      rw [foldl_count_max_eq]
      simp [List.length_map]
  have hspec : calculate_rule_specificity rs = avgSpecificity rs := by
    unfold calculate_rule_specificity avgSpecificity
    rw [if_neg (by simp [hr])]
  have hbounds : 0 ≤ avgSpecificity rs ∧ avgSpecificity rs ≤ 1 := by
    constructor
    · exact le_max_left 0 _
    · exact max_le (by norm_num) (min_le_right _ 1)
  refine ⟨?_, hbounds⟩
  unfold calculate_confidence
  rw [if_neg (by simp [hg])]
  rw [hcons, hspec]
  ring_nf

/-- Group of two MEDIUM anomalies used to instantiate C4. -/
def confWitnessGroup : List Anomaly :=
  [.socketAnom 1 2 .MEDIUM, .socketAnom 1 3 .MEDIUM]

/-- One eight-field rule used to instantiate C4. -/
def confWitnessRules : List SgRule :=
  [⟨["id", "name", "metric", "threshold", "duration", "severity", "description", "mitigation"]⟩]

/-- Witness for C4: the confidence of a two-anomaly group against one
eight-field rule satisfies the weighted-sum formula. -/
theorem confidence_weighted_sum_witness :
    calculate_confidence confWitnessGroup confWitnessRules =
      max 0 (min ((1/2) * min (1/2 + (confWitnessGroup.length : ℚ) * (1/10)) (4/5)
        + (3/10) * modalFraction confWitnessGroup
        + (1/5) * avgSpecificity confWitnessRules) 1) ∧
    0 ≤ avgSpecificity confWitnessRules ∧ avgSpecificity confWitnessRules ≤ 1 :=
  confidence_weighted_sum confWitnessGroup confWitnessRules
    (by simp [confWitnessGroup]) (by simp [confWitnessRules])

/-- Invariant carried by the Suggest state along any run: the learning
rate is the fixed 0.1 and the threshold sits in the clamp interval. -/
def SuggestInv (st : SuggestState) : Prop :=
  st.learning_rate = 1/10 ∧ 1/2 ≤ st.confidence_threshold ∧ st.confidence_threshold ≤ 9/10

theorem provide_feedback_inv (st : SuggestState) (b : Bool) (h : SuggestInv st) :
    SuggestInv (provide_feedback st b) := by
  obtain ⟨hlr, hlo, hhi⟩ := h
  simp only [provide_feedback]
  split_ifs with h5 hlow hhigh
  · refine ⟨hlr, ?_, ?_⟩
    · rw [hlr] at *
      exact le_min (by linarith) (by norm_num)
    · exact min_le_right _ _
  · refine ⟨hlr, ?_, ?_⟩
    · exact le_max_right _ _
    · rw [hlr] at *
      exact max_le (by linarith) (by norm_num)
  · exact ⟨hlr, hlo, hhi⟩
  · exact ⟨hlr, hlo, hhi⟩

theorem foldl_feedback_inv (fs : List Bool) (st : SuggestState) (h : SuggestInv st) :
    SuggestInv (fs.foldl provide_feedback st) := by
  induction fs generalizing st with
  | nil => exact h
  | cons b t ih => exact ih _ (provide_feedback_inv st b h)

/-- The Suggest state after a sequence of provide_feedback calls from
the initial state. -/
def feedbackRun (fs : List Bool) : SuggestState :=
  fs.foldl provide_feedback initialSuggestState

/-- C5: starting from the initial threshold 0.6, after every sequence of
provide_feedback calls the confidence threshold stays within [0.5, 0.9];
on the next call it is unchanged while fewer than 5 records are
buffered, and once at least 5 are buffered it rises to
min(threshold + 0.1, 0.9) when the buffered helpful ratio is below 0.3,
falls to max(threshold - 0.1, 0.5) when the ratio is above 0.7, and is
unchanged otherwise. -/
theorem feedback_threshold_adaptation (fs : List Bool) (b : Bool) :
    (1/2 ≤ (feedbackRun fs).confidence_threshold ∧
      (feedbackRun fs).confidence_threshold ≤ 9/10) ∧
    ((pushBounded 20 (feedbackRun fs).feedback_history b).length < 5 →
      (provide_feedback (feedbackRun fs) b).confidence_threshold =
        (feedbackRun fs).confidence_threshold) ∧
    (5 ≤ (pushBounded 20 (feedbackRun fs).feedback_history b).length →
      ((((pushBounded 20 (feedbackRun fs).feedback_history b).count true : ℚ) /
          ((pushBounded 20 (feedbackRun fs).feedback_history b).length : ℚ) < 3/10 →
        (provide_feedback (feedbackRun fs) b).confidence_threshold =
          min ((feedbackRun fs).confidence_threshold + 1/10) (9/10)) ∧
      (7/10 < ((pushBounded 20 (feedbackRun fs).feedback_history b).count true : ℚ) /
          ((pushBounded 20 (feedbackRun fs).feedback_history b).length : ℚ) →
        (provide_feedback (feedbackRun fs) b).confidence_threshold =
          max ((feedbackRun fs).confidence_threshold - 1/10) (1/2)) ∧
      (3/10 ≤ ((pushBounded 20 (feedbackRun fs).feedback_history b).count true : ℚ) /
          ((pushBounded 20 (feedbackRun fs).feedback_history b).length : ℚ) →
        ((pushBounded 20 (feedbackRun fs).feedback_history b).count true : ℚ) /
          ((pushBounded 20 (feedbackRun fs).feedback_history b).length : ℚ) ≤ 7/10 →
        (provide_feedback (feedbackRun fs) b).confidence_threshold =
          (feedbackRun fs).confidence_threshold))) := by
  have hinv : SuggestInv (feedbackRun fs) :=
    foldl_feedback_inv fs initialSuggestState
      (by refine ⟨rfl, ?_, ?_⟩ <;> norm_num [initialSuggestState])
  obtain ⟨hlr, hlo, hhi⟩ := hinv
  refine ⟨⟨hlo, hhi⟩, ?_, ?_⟩
  · intro h5lt
    simp only [provide_feedback]
    rw [if_neg (not_le.mpr h5lt)]
  · intro h5
    refine ⟨?_, ?_, ?_⟩
    · intro hratio
      simp only [provide_feedback]
      rw [if_pos h5, if_pos hratio, hlr]
    · intro hratio
      simp only [provide_feedback]
      rw [if_pos h5, if_neg (by rw [not_lt]; linarith), if_pos hratio, hlr]
    · intro hge hle
      simp only [provide_feedback]
      rw [if_pos h5, if_neg (not_lt.mpr hge), if_neg (not_lt.mpr hle)]

/-- Witness for C5: after four unhelpful feedback records, a fifth
unhelpful record makes the ratio 0 and raises the threshold to
min(threshold + 0.1, 0.9). -/
theorem feedback_threshold_adaptation_witness :
    (provide_feedback (feedbackRun [false, false, false, false]) false).confidence_threshold =
      min ((feedbackRun [false, false, false, false]).confidence_threshold + 1/10) (9/10) := by
  have h := feedback_threshold_adaptation [false, false, false, false] false
  have hhist : pushBounded 20 (feedbackRun [false, false, false, false]).feedback_history false =
      [false, false, false, false, false] := by decide
  refine (h.2.2 ?_).1 ?_
  · rw [hhist]
    norm_num
  · rw [hhist]
    norm_num

/- ## Claims about the rule store -/

/-- C8: adding a rule whose id is already present in the partition
returns false and leaves the whole store untouched; in particular the
partition's rule list, the dirty set and the partition version are
unchanged. -/
theorem add_rule_duplicate_noop (st : SyncState) (rule_type : String) (r : SyncRule)
    (h : ∃ ex ∈ (alGet st.rules rule_type).getD [], ex.id = r.id) :
    add_rule st rule_type r = (false, st) ∧
    (add_rule st rule_type r).2.rules = st.rules ∧
    (add_rule st rule_type r).2.modified_rules = st.modified_rules ∧
    get_rule_version (add_rule st rule_type r).2 rule_type =
      get_rule_version st rule_type := by
  obtain ⟨ex, hmem, hid⟩ := h
  have hsome : ∃ l, alGet st.rules rule_type = some l := by
    rcases hget : alGet st.rules rule_type with _ | l
    · rw [hget] at hmem
      simp at hmem
    · exact ⟨l, rfl⟩
  obtain ⟨l, hget⟩ := hsome
  have hmain : add_rule st rule_type r = (false, st) := by
    unfold add_rule
    rw [show alHas st.rules rule_type = true from by simp [alHas, hget]]
    simp only [if_true]
    rw [if_pos]
    rw [List.any_eq_true]
    refine ⟨ex, ?_, by simp [hid]⟩
    rw [hget] at hmem ⊢
    exact hmem
  refine ⟨hmain, ?_, ?_, ?_⟩ <;> rw [hmain]

/-- Store holding one intrusion rule, used to instantiate C8. -/
def dupStore : SyncState :=
  { rules := [("intrusion", [⟨some "INT001", [("severity", "HIGH")]⟩])],
    rule_versions := [("intrusion", [1, 0, 0])],
    rule_hashes := [],
    last_sync_time := 0,
    modified_rules := [],
    disk := [] }

/-- Witness for C8: adding a second rule with id INT001 to the partition
that already holds INT001 is rejected without any state change. -/
theorem add_rule_duplicate_noop_witness :
    add_rule dupStore "intrusion" ⟨some "INT001", []⟩ = (false, dupStore) ∧
    (add_rule dupStore "intrusion" ⟨some "INT001", []⟩).2.rules = dupStore.rules ∧
    (add_rule dupStore "intrusion" ⟨some "INT001", []⟩).2.modified_rules =
      dupStore.modified_rules ∧
    get_rule_version (add_rule dupStore "intrusion" ⟨some "INT001", []⟩).2 "intrusion" =
      get_rule_version dupStore "intrusion" :=
  add_rule_duplicate_noop dupStore "intrusion" ⟨some "INT001", []⟩
    ⟨⟨some "INT001", [("severity", "HIGH")]⟩, by simp [dupStore, alGet], rfl⟩

theorem verifyOne_disk (acc : IntegrityResult × SyncState) (k : String) :
    (verifyOne acc k).2.disk = acc.2.disk := by
  unfold verifyOne
  split
  · rfl
  · split
    · split <;> rfl
    · rfl

theorem verifyOne_hashes_ne (acc : IntegrityResult × SyncState) (k rt : String)
    (hne : k ≠ rt) :
    alGet (verifyOne acc k).2.rule_hashes rt = alGet acc.2.rule_hashes rt := by
  unfold verifyOne
  split
  · rfl
  · split
    · split <;> rfl
    · exact alGet_alSet_ne _ _ _ _ hne

theorem verifyOne_failed_mono (acc : IntegrityResult × SyncState) (k : String)
    (x : String × String) (hx : x ∈ acc.1.failed) : x ∈ (verifyOne acc k).1.failed := by
  unfold verifyOne
  split
  · exact hx
  · split
    · split
      · exact hx
      · exact List.mem_append_left _ hx
    · exact hx

theorem verifyOne_mismatch (acc : IntegrityResult × SyncState) (rt : String)
    (d h : DiskFile) (hd : alGet acc.2.disk rt = some d)
    (hh : alGet acc.2.rule_hashes rt = some h) (hne : fileHash d ≠ h) :
    verifyOne acc rt =
      ({ acc.1 with failed := acc.1.failed ++ [(rt, "Hash mismatch")] }, acc.2) := by
  unfold verifyOne
  simp only [hd, hh]
  rw [if_neg hne]

theorem verify_fold_disk (keys : List String) (acc : IntegrityResult × SyncState) :
    (keys.foldl verifyOne acc).2.disk = acc.2.disk := by
  induction keys generalizing acc with
  | nil => rfl
  | cons k t ih => rw [List.foldl_cons, ih, verifyOne_disk]

theorem verify_fold_hashes_ne (keys : List String) (acc : IntegrityResult × SyncState)
    (rt : String) (h : rt ∉ keys) :
    alGet (keys.foldl verifyOne acc).2.rule_hashes rt = alGet acc.2.rule_hashes rt := by
  induction keys generalizing acc with
  | nil => rfl
  | cons k t ih =>
    rw [List.foldl_cons, ih _ (fun hm => h (List.mem_cons_of_mem k hm)),
      verifyOne_hashes_ne _ _ _ (fun he => h (by rw [← he]; exact List.mem_cons_self k t))]

theorem verify_fold_failed_mono (keys : List String) (acc : IntegrityResult × SyncState)
    (x : String × String) (hx : x ∈ acc.1.failed) :
    x ∈ (keys.foldl verifyOne acc).1.failed := by
  induction keys generalizing acc with
  | nil => exact hx
  | cons k t ih => exact ih _ (verifyOne_failed_mono _ _ _ hx)

theorem verify_fold_mismatch (rt : String) (d h : DiskFile) (hne : fileHash d ≠ h) :
    ∀ (keys : List String) (acc : IntegrityResult × SyncState),
      rt ∈ keys → keys.Nodup →
      alGet acc.2.disk rt = some d → alGet acc.2.rule_hashes rt = some h →
      ((rt, "Hash mismatch") ∈ (keys.foldl verifyOne acc).1.failed) ∧
      alGet (keys.foldl verifyOne acc).2.rule_hashes rt = some h ∧
      (keys.foldl verifyOne acc).2.disk = acc.2.disk := by
  intro keys
  induction keys with
  | nil =>
    intro acc hmem
    simp at hmem
  | cons k t ih =>
    intro acc hmem hnd hd hh
    rw [List.nodup_cons] at hnd
    obtain ⟨hknt, hndt⟩ := hnd
    rw [List.foldl_cons]
    by_cases hk : k = rt
    · subst hk
      rw [verifyOne_mismatch acc k d h hd hh hne]
      refine ⟨?_, ?_, ?_⟩
      · exact verify_fold_failed_mono t _ _ (List.mem_append_right _ (by simp))
      · rw [verify_fold_hashes_ne t _ k hknt]
        exact hh
      · rw [verify_fold_disk]
    · have hmt : rt ∈ t := by
        rcases List.mem_cons.mp hmem with he | hm
        · exact absurd he.symm hk
        · exact hm
      have hd2 : alGet (verifyOne acc k).2.disk rt = some d := by
        rw [verifyOne_disk]
        exact hd
      have hh2 : alGet (verifyOne acc k).2.rule_hashes rt = some h := by
        rw [verifyOne_hashes_ne acc k rt hk]
        exact hh
      obtain ⟨i1, i2, i3⟩ := ih (verifyOne acc k) hmt hndt hd2 hh2
      refine ⟨i1, i2, ?_⟩
      rw [i3, verifyOne_disk]

/-- C7 (amended): for every partition whose recomputed on-disk hash
differs from the stored hash, verify_integrity reports the partition in
its failed list with reason "Hash mismatch" and returns a FAILED status
instead of halting; however the stored hash is left unchanged (the new
hash is not adopted), so an immediately repeated verify_integrity
reports that partition as failed again. -/
theorem verify_integrity_mismatch (st : SyncState) (rt : String) (d stored : DiskFile)
    (hmem : rt ∈ rulePathKeys)
    (hd : alGet st.disk rt = some d)
    (hh : alGet st.rule_hashes rt = some stored)
    (hne : fileHash d ≠ stored) :
    ((rt, "Hash mismatch") ∈ (verify_integrity st).1.failed) ∧
    (verify_integrity st).1.status = "FAILED" ∧
    alGet (verify_integrity st).2.rule_hashes rt = some stored ∧
    ((rt, "Hash mismatch") ∈ (verify_integrity (verify_integrity st).2).1.failed) := by
  have hnd : rulePathKeys.Nodup := by decide
  obtain ⟨hf, hhash, hdisk⟩ :=
    verify_fold_mismatch rt d stored hne rulePathKeys (⟨[], []⟩, st) hmem hnd hd hh
  unfold verify_integrity
  rcases hsplit : rulePathKeys.foldl verifyOne (⟨[], []⟩, st) with ⟨res1, st1⟩
  rw [hsplit] at hf hhash hdisk
  simp only at hf hhash hdisk
  have hd2 : alGet st1.disk rt = some d := by
    rw [hdisk]
    exact hd
  obtain ⟨hf2, -, -⟩ :=
    verify_fold_mismatch rt d stored hne rulePathKeys (⟨[], []⟩, st1) hmem hnd hd2 hhash
  refine ⟨hf, ?_, hhash, hf2⟩
  have hnil : res1.failed ≠ [] := List.ne_nil_of_mem hf
  simp [IntegrityResult.status, hnil]

/-- On-disk record of the intrusion partition in the C7 scenario. -/
def freshDiskFile : DiskFile := ⟨[1, 0, 0], [⟨some "INT001", []⟩]⟩

/-- Stale stored hash of the C7 scenario (the hash of an older record). -/
def staleHash : DiskFile := ⟨[1, 0, 0], []⟩

/-- Store whose stored intrusion hash no longer matches its on-disk
record. -/
def mismatchStore : SyncState :=
  { rules := [("intrusion", [⟨some "INT001", []⟩])],
    rule_versions := [("intrusion", [1, 0, 0])],
    rule_hashes := [("intrusion", staleHash)],
    last_sync_time := 0,
    modified_rules := [],
    disk := [("intrusion", freshDiskFile)] }

/-- Witness for C7 (amended): the mismatch store instantiates the
verify_integrity mismatch theorem. -/
theorem verify_integrity_mismatch_witness :
    (("intrusion", "Hash mismatch") ∈ (verify_integrity mismatchStore).1.failed) ∧
    (verify_integrity mismatchStore).1.status = "FAILED" ∧
    alGet (verify_integrity mismatchStore).2.rule_hashes "intrusion" = some staleHash ∧
    (("intrusion", "Hash mismatch") ∈
      (verify_integrity (verify_integrity mismatchStore).2).1.failed) :=
  verify_integrity_mismatch mismatchStore "intrusion" freshDiskFile staleHash
    (by decide) (by decide) (by decide) (by decide)

/-- C7 counterexample: on a hash mismatch the store does not adopt the
new hash (the stored hash stays stale), and the immediately repeated
verify_integrity reports the partition as failed again rather than
verified, contradicting the claimed self-healing. -/
theorem verify_integrity_no_selfheal_cex :
    (("intrusion", "Hash mismatch") ∈ (verify_integrity mismatchStore).1.failed) ∧
    alGet (verify_integrity mismatchStore).2.rule_hashes "intrusion" ≠
      some (fileHash freshDiskFile) ∧
    ("intrusion" ∉ (verify_integrity (verify_integrity mismatchStore).2).1.verified) ∧
    (("intrusion", "Hash mismatch") ∈
      (verify_integrity (verify_integrity mismatchStore).2).1.failed) := by
  decide

/-- Coherence of one partition: the stored hash (when any) matches the
on-disk record, i.e. no external edit is pending there. -/
def cleanAt (st : SyncState) (rt : String) : Prop :=
  ∀ d, alGet st.disk rt = some d →
    alGet st.rule_hashes rt = none ∨ alGet st.rule_hashes rt = some (fileHash d)

theorem checkOne_disk (st : SyncState) (k : String) : (checkOne st k).disk = st.disk := by
  unfold checkOne
  split
  · rfl
  · split
    · split <;> rfl
    · rfl

theorem checkOne_modified (st : SyncState) (k : String) :
    (checkOne st k).modified_rules = st.modified_rules := by
  unfold checkOne
  split
  · rfl
  · split
    · split <;> rfl
    · rfl

theorem checkOne_at_ne (st : SyncState) (k rt : String) (h : k ≠ rt) :
    alGet (checkOne st k).rules rt = alGet st.rules rt ∧
    alGet (checkOne st k).rule_versions rt = alGet st.rule_versions rt ∧
    alGet (checkOne st k).rule_hashes rt = alGet st.rule_hashes rt := by
  unfold checkOne
  split
  · exact ⟨rfl, rfl, rfl⟩
  · split
    · split
      · exact ⟨alGet_alSet_ne _ _ _ _ h, alGet_alSet_ne _ _ _ _ h, alGet_alSet_ne _ _ _ _ h⟩
      · exact ⟨rfl, rfl, rfl⟩
    · exact ⟨rfl, rfl, rfl⟩

theorem checkOne_self_clean (st : SyncState) (rt : String) (h : cleanAt st rt) :
    checkOne st rt = st := by
  unfold checkOne
  rcases hd : alGet st.disk rt with _ | d
  · rfl
  · rcases h d hd with hnone | hsome
    · simp only [hnone]
    · simp only [hsome]
      rw [if_neg (fun hcon => hcon rfl)]

theorem check_fold_preserve (rt : String) :
    ∀ (keys : List String) (st : SyncState), cleanAt st rt →
      (keys.foldl checkOne st).disk = st.disk ∧
      (keys.foldl checkOne st).modified_rules = st.modified_rules ∧
      alGet (keys.foldl checkOne st).rules rt = alGet st.rules rt ∧
      alGet (keys.foldl checkOne st).rule_versions rt = alGet st.rule_versions rt ∧
      alGet (keys.foldl checkOne st).rule_hashes rt = alGet st.rule_hashes rt := by
  intro keys
  induction keys with
  | nil => exact fun st _ => ⟨rfl, rfl, rfl, rfl, rfl⟩
  | cons k t ih =>
    intro st hclean
    rw [List.foldl_cons]
    by_cases hk : k = rt
    · subst hk
      rw [checkOne_self_clean st k hclean]
      exact ih st hclean
    · obtain ⟨p1, p2, p3⟩ := checkOne_at_ne st k rt hk
      have hclean2 : cleanAt (checkOne st k) rt := by
        intro d hd
        rw [checkOne_disk] at hd
        rw [p3]
        exact hclean d hd
      obtain ⟨q1, q2, q3, q4, q5⟩ := ih (checkOne st k) hclean2
      exact ⟨by rw [q1, checkOne_disk], by rw [q2, checkOne_modified],
        by rw [q3, p1], by rw [q4, p2], by rw [q5, p3]⟩

theorem applyOne_rules (st : SyncState) (k : String) : (applyOne st k).rules = st.rules := by
  unfold applyOne
  split <;> rfl

theorem applyOne_at_ne (st : SyncState) (k rt : String) (h : k ≠ rt) :
    alGet (applyOne st k).rule_versions rt = alGet st.rule_versions rt ∧
    alGet (applyOne st k).disk rt = alGet st.disk rt := by
  unfold applyOne
  split
  · exact ⟨alGet_alSet_ne _ _ _ _ h, alGet_alSet_ne _ _ _ _ h⟩
  · exact ⟨rfl, rfl⟩

theorem apply_fold_not_mem (rt : String) :
    ∀ (keys : List String) (st : SyncState), rt ∉ keys →
      alGet (keys.foldl applyOne st).rule_versions rt = alGet st.rule_versions rt ∧
      alGet (keys.foldl applyOne st).disk rt = alGet st.disk rt := by
  intro keys
  induction keys with
  | nil => exact fun st _ => ⟨rfl, rfl⟩
  | cons k t ih =>
    intro st hmem
    rw [List.foldl_cons]
    have hk : k ≠ rt := fun he => hmem (by rw [he]; exact List.mem_cons_self rt t)
    obtain ⟨p1, p2⟩ := applyOne_at_ne st k rt hk
    obtain ⟨q1, q2⟩ := ih (applyOne st k) (fun hm => hmem (List.mem_cons_of_mem k hm))
    exact ⟨by rw [q1, p1], by rw [q2, p2]⟩

/-- Version written for a partition by _apply_rule_modifications: the
bumped stored version, or 1.0.0 when none is stored. -/
def applyVersion (st : SyncState) (rt : String) : List ℕ :=
  match alGet st.rule_versions rt with
  | some v => bumpVersion v
  | none => [1, 0, 0]

theorem apply_fold_run (rt : String) (hpath : rt ∈ rulePathKeys) :
    ∀ (keys : List String) (st : SyncState), rt ∈ keys → keys.Nodup →
      (alGet st.rules rt).isSome = true →
      alGet (keys.foldl applyOne st).disk rt =
        some ⟨applyVersion st rt, (alGet st.rules rt).getD []⟩ ∧
      alGet (keys.foldl applyOne st).rule_versions rt = some (applyVersion st rt) := by
  intro keys
  induction keys with
  | nil =>
    intro st hmem
    simp at hmem
  | cons k t ih =>
    intro st hmem hnd hsome
    rw [List.nodup_cons] at hnd
    obtain ⟨hknt, hndt⟩ := hnd
    rw [List.foldl_cons]
    by_cases hk : k = rt
    · subst hk
      have happ : applyOne st k =
          { st with
            rule_versions := alSet st.rule_versions k (applyVersion st k),
            disk := alSet st.disk k ⟨applyVersion st k, (alGet st.rules k).getD []⟩,
            rule_hashes := alSet st.rule_hashes k
              (fileHash ⟨applyVersion st k, (alGet st.rules k).getD []⟩) } := by
        unfold applyOne
        rw [if_pos ⟨by simp [alHas, Option.isSome_iff_exists] at hsome ⊢; exact hsome, hpath⟩]
        rfl
      rw [happ]
      obtain ⟨q1, q2⟩ := apply_fold_not_mem k t _ hknt
      refine ⟨?_, ?_⟩
      · rw [q2]
        exact alGet_alSet_self _ _ _
      · rw [q1]
        exact alGet_alSet_self _ _ _
    · have hmt : rt ∈ t := by
        rcases List.mem_cons.mp hmem with he | hm
        · exact absurd he.symm hk
        · exact hm
      obtain ⟨p1, p2⟩ := applyOne_at_ne st k rt hk
      have hsome2 : (alGet (applyOne st k).rules rt).isSome = true := by
        rw [applyOne_rules]
        exact hsome
      obtain ⟨q1, q2⟩ := ih (applyOne st k) hmt hndt hsome2
      have hav : applyVersion (applyOne st k) rt = applyVersion st rt := by
        unfold applyVersion
        rw [p1]
      have hrl : alGet (applyOne st k).rules rt = alGet st.rules rt := by
        rw [applyOne_rules]
      refine ⟨?_, ?_⟩
      · rw [q1, hav, hrl]
      · rw [q2, hav]

theorem add_rule_fresh (st : SyncState) (rt : String) (r : SyncRule)
    (hfresh : ∀ ex ∈ (alGet st.rules rt).getD [], ex.id ≠ r.id) :
    (add_rule st rt r).1 = true ∧
    alGet (add_rule st rt r).2.rules rt = some ((alGet st.rules rt).getD [] ++ [r]) ∧
    (add_rule st rt r).2.rule_versions = st.rule_versions ∧
    (add_rule st rt r).2.rule_hashes = st.rule_hashes ∧
    (add_rule st rt r).2.disk = st.disk ∧
    (add_rule st rt r).2.modified_rules =
      (if rt ∈ st.modified_rules then st.modified_rules
        else st.modified_rules ++ [rt]) := by
  rcases hget : alGet st.rules rt with _ | l
  · have hhas : alHas st.rules rt = false := by
      simp [alHas, hget]
    simp only [add_rule, hhas, Bool.false_eq_true, if_false, alGet_alSet_self,
      Option.getD_some, List.any_nil, List.nil_append]
    simp [hget]
  · have hhas : alHas st.rules rt = true := by
      simp [alHas, hget]
    have hany : (l.any (fun ex => ex.id = r.id)) = false := by
      rw [List.any_eq_false]
      intro ex hex
      simpa using hfresh ex (by rw [hget]; exact hex)
    simp only [add_rule, hhas, if_true, hget, Option.getD_some, hany,
      Bool.false_eq_true, if_false]
    simp [alGet_alSet_self]

theorem versionLt_init : versionLt [0, 0, 0] [1, 0, 0] :=
  List.Lex.rel (by norm_num)

theorem versionLt_bump : ∀ (v : List ℕ), v ≠ [] → versionLt v (bumpVersion v) := by
  intro v
  induction v with
  | nil =>
    intro h
    exact absurd rfl h
  | cons x t ih =>
    intro hcons
    cases t with
    | nil =>
      unfold versionLt bumpVersion
      simp only [List.dropLast_single, List.getLast?_singleton, Option.getD_some,
        List.nil_append]
      exact List.Lex.rel (Nat.lt_succ_self x)
    | cons y t2 =>
      unfold versionLt bumpVersion
      rw [List.dropLast_cons₂, List.getLast?_cons_cons, List.cons_append]
      refine List.Lex.cons ?_
      have hrec := ih (by simp)
      unfold versionLt bumpVersion at hrec
      exact hrec

theorem syncOp_force_eq (st : SyncState) (now : ℚ) :
    syncOp st now true =
      { apply_rule_modifications (check_rule_updates { st with last_sync_time := now }) with
        modified_rules := [] } := by
  unfold syncOp
  rw [if_neg (by simp)]

/-- C6: adding a fresh-id rule to a coherent partition succeeds, and a
forced sync persists it: the on-disk record then contains a stored rule
equal to the added one, the partition version read after the sync equals
the persisted version, and that version is strictly greater (in
component-wise lexicographic order) than the version before the add. -/
theorem add_sync_roundtrip (st : SyncState) (rule_type : String) (r : SyncRule) (now : ℚ)
    (hpath : rule_type ∈ rulePathKeys)
    (hfresh : ∀ ex ∈ (alGet st.rules rule_type).getD [], ex.id ≠ r.id)
    (hnd : st.modified_rules.Nodup)
    (hclean : cleanAt st rule_type)
    (hver : ∀ v, alGet st.rule_versions rule_type = some v → v ≠ []) :
    (add_rule st rule_type r).1 = true ∧
    ∃ d : DiskFile,
      alGet (syncOp (add_rule st rule_type r).2 now true).disk rule_type = some d ∧
      r ∈ d.rules ∧
      get_rule_version (syncOp (add_rule st rule_type r).2 now true) rule_type = d.version ∧
      versionLt (get_rule_version st rule_type) d.version := by
  obtain ⟨hok, hrules, hvers, hhash, hdisk, hmod⟩ := add_rule_fresh st rule_type r hfresh
  rcases hadd : add_rule st rule_type r with ⟨ok, stA⟩
  rw [hadd] at hok hrules hvers hhash hdisk hmod
  simp only at hok hrules hvers hhash hdisk hmod
  simp only
  subst hok
  refine ⟨rfl, ?_⟩
  rw [syncOp_force_eq]
  unfold check_rule_updates apply_rule_modifications
  have hclean1 : cleanAt { stA with last_sync_time := now } rule_type := by
    intro d hd
    have hd2 : alGet st.disk rule_type = some d := by
      rw [← hdisk]
      exact hd
    have hh := hclean d hd2
    rw [show ({ stA with last_sync_time := now } : SyncState).rule_hashes =
      st.rule_hashes from hhash]
    exact hh
  obtain ⟨c1, c2, c3, c4, c5⟩ :=
    check_fold_preserve rule_type rulePathKeys { stA with last_sync_time := now } hclean1
  set st2 := rulePathKeys.foldl checkOne { stA with last_sync_time := now } with hst2
  have hmemA : rule_type ∈ stA.modified_rules := by
    rw [hmod]
    by_cases h : rule_type ∈ st.modified_rules
    · rw [if_pos h]
      exact h
    · rw [if_neg h]
      exact List.mem_append_right _ (by simp)
  have hndA : stA.modified_rules.Nodup := by
    rw [hmod]
    by_cases h : rule_type ∈ st.modified_rules
    · rw [if_pos h]
      exact hnd
    · rw [if_neg h]
      rw [List.nodup_append]
      exact ⟨hnd, List.nodup_singleton _, by simpa [List.disjoint_singleton] using h⟩
  have hkeys : st2.modified_rules = stA.modified_rules := c2
  have hrules2 : alGet st2.rules rule_type =
      some ((alGet st.rules rule_type).getD [] ++ [r]) := by
    rw [c3]
    exact hrules
  have hsome2 : (alGet st2.rules rule_type).isSome = true := by
    rw [hrules2]
    rfl
  have hvers2 : alGet st2.rule_versions rule_type = alGet st.rule_versions rule_type := by
    rw [c4]
    exact congrArg (fun x => alGet x rule_type) hvers
  obtain ⟨a1, a2⟩ := apply_fold_run rule_type hpath st2.modified_rules st2
    (by rw [hkeys]; exact hmemA)
    (by rw [hkeys]; exact hndA)
    hsome2
  refine ⟨⟨applyVersion st2 rule_type, (alGet st2.rules rule_type).getD []⟩,
    ?_, ?_, ?_, ?_⟩
  · exact a1
  · rw [hrules2]
    exact List.mem_append_right _ (by simp)
  · unfold get_rule_version
    show (alGet (List.foldl applyOne st2 st2.modified_rules).rule_versions
      rule_type).getD [0, 0, 0] = _
    rw [a2]
    rfl
  · have hav : applyVersion st2 rule_type =
        (match alGet st.rule_versions rule_type with
          | some v => bumpVersion v
          | none => [1, 0, 0]) := by
      unfold applyVersion
      rw [hvers2]
    show versionLt (get_rule_version st rule_type) (applyVersion st2 rule_type)
    rw [hav]
    unfold get_rule_version
    rcases hv : alGet st.rule_versions rule_type with _ | v
    · simp only [Option.getD_none]
      exact versionLt_init
    · simp only [Option.getD_some]
      exact versionLt_bump v (hver v hv)

/-- Store with all partitions empty, used to instantiate C6. -/
def emptyStore : SyncState :=
  { rules := [], rule_versions := [], rule_hashes := [],
    last_sync_time := 0, modified_rules := [], disk := [] }

/-- Rule used to instantiate C6. -/
def seedRule : SyncRule := ⟨some "INT001", [("severity", "HIGH")]⟩

/-- Witness for C6: adding INT001 to the empty store and forcing a sync
persists it with version 1.0.0, strictly above the default 0.0.0. -/
theorem add_sync_roundtrip_witness :
    (add_rule emptyStore "intrusion" seedRule).1 = true ∧
    ∃ d : DiskFile,
      alGet (syncOp (add_rule emptyStore "intrusion" seedRule).2 4000 true).disk
        "intrusion" = some d ∧
      seedRule ∈ d.rules ∧
      get_rule_version (syncOp (add_rule emptyStore "intrusion" seedRule).2 4000 true)
        "intrusion" = d.version ∧
      versionLt (get_rule_version emptyStore "intrusion") d.version :=
  add_sync_roundtrip emptyStore "intrusion" seedRule 4000
    (by decide)
    (by intro ex hex; simp [emptyStore, alGet] at hex)
    (by simp [emptyStore])
    (by intro d hd; simp [emptyStore, alGet] at hd)
    (by intro v hv; simp [emptyStore, alGet] at hv)

end VaelNexus
